import Mathlib

set_option autoImplicit false

/-!
Shallow embedding of the mongmung_csslint_server core: configuration
synthesis (src/config/stylelint.ts), request validation, warning
extraction, output formatting and lint orchestration
(src/services/lintService.ts).

JavaScript objects holding rule values are modelled as ordered
association lists of own properties.  A rule value is either an immutable
primitive or a reference (a heap address) to a mutable array/record
object, so that aliasing of nested rule values is expressible.  The
external lint engine (stylelint) and the postcss parser are out-of-scope
black boxes and enter the model as function parameters.
-/

/-- JavaScript primitive rule values: null, boolean, string, number
(src/types/index.ts, StylelintRuleValue). -/
inductive JsPrim where
  | nullV : JsPrim
  | boolV : Bool → JsPrim
  | strV : String → JsPrim
  | numV : Int → JsPrim
deriving DecidableEq

/-- A stylelint rule value: a primitive, or a reference to a mutable
array/record object (the `Array<...>` arm of StylelintRuleValue),
identified by its heap address. -/
inductive RuleVal where
  | prim : JsPrim → RuleVal
  | ref : Nat → RuleVal
deriving DecidableEq

/-- A rules mapping: the ordered own properties of a JS object
(`Record<string, StylelintRuleValue>`). -/
abbrev RulesMap := List (String × RuleVal)

/-- Property read `m[k]`: value of the first entry with key `k`. -/
def lookupRule : RulesMap → String → Option RuleVal
  | [], _ => none
  | (k', v) :: rest, k => if k' = k then some v else lookupRule rest k

/-- Property write `m[k] = v`: update the entry in place if the key is
present, otherwise append it (JS property insertion order). -/
def setKey : RulesMap → String → RuleVal → RulesMap
  | [], k, v => [(k, v)]
  | p :: rest, k, v => if p.1 = k then (k, v) :: rest else p :: setKey rest k v

/-- Property delete `delete m[k]`. -/
def delKey (m : RulesMap) (k : String) : RulesMap :=
  m.filter (fun p => p.1 ≠ k)

/-- Default stylelint presets (DEFAULT_EXTENDS in src/config/stylelint.ts). -/
def DEFAULT_EXTENDS : List String :=
  ["stylelint-config-standard",
   "stylelint-config-recommended-scss",
   "stylelint-config-recommended-vue"]

/-- Default stylelint plugins (DEFAULT_PLUGINS in src/config/stylelint.ts). -/
def DEFAULT_PLUGINS : List String :=
  ["stylelint-order", "@stylistic/stylelint-plugin"]

/-- SYNTAX_PARSER_MAP from src/config/stylelint.ts: record lookup on keys
`css` and `html`; any other key reads as `undefined`. -/
def synParserMap (syn : String) : Option String :=
  if syn = "css" then none
  else if syn = "html" then some "postcss-html"
  else none

/-- JS truthiness of a `string | undefined` value: `undefined` and the
empty string are falsy. -/
def jsTruthyStr : Option String → Bool
  | none => false
  | some s => !(s == "")

/-- The legacy remap block of createStylelintConfig (src/config/stylelint.ts
lines 52-58), applied to the spread copy `{ ...rules }`: when key
`color-hex-case` is present (`!== undefined`), its value is written under
`@stylistic/color-hex-case` and the old key deleted. -/
def normalizeRules (rules : RulesMap) : RulesMap :=
  match lookupRule rules "color-hex-case" with
  | some v => delKey (setKey rules "@stylistic/color-hex-case" v) "color-hex-case"
  | none => rules

/-- StylelintConfig (src/types/index.ts).  The source field `extends` is a
Lean keyword and is rendered `extendsList`; `customSyntax` is rendered
`customSyn`. -/
structure StylelintConfig where
  extendsList : List String
  fix : Bool
  plugins : List String
  rules : RulesMap
  customSyn : Option String
deriving DecidableEq

/-- createStylelintConfig (src/config/stylelint.ts): spreads the caller's
rules, applies the legacy remap, fixes presets/plugins, enables auto-fix,
and sets the custom parser only when the mapped value is truthy. -/
def createStylelintConfig (rules : RulesMap) (syn : String) : StylelintConfig :=
  let normalizedRules := normalizeRules rules
  let cs := synParserMap syn
  { extendsList := DEFAULT_EXTENDS
    fix := true
    plugins := DEFAULT_PLUGINS
    rules := normalizedRules
    customSyn := if jsTruthyStr cs then cs else none }

/-- A heap of rules objects: addresses mapped to their property lists,
with a bump allocator.  Used to state aliasing properties of the object
spread in createStylelintConfig. -/
structure Heap where
  objs : List (Nat × RulesMap)
  next : Nat
deriving DecidableEq

/-- Read the object stored at an address. -/
def Heap.lookup (h : Heap) (a : Nat) : Option RulesMap :=
  (h.objs.find? (fun p => p.1 = a)).map (fun p => p.2)

/-- Every allocated address is below the allocation cursor. -/
def Heap.WF (h : Heap) : Prop :=
  ∀ p ∈ h.objs, p.1 < h.next

instance (h : Heap) : Decidable h.WF := by
  unfold Heap.WF; infer_instance

/-- A StylelintConfig whose rules mapping lives in the heap: `rulesAddr`
is the address of the (freshly allocated) rules object. -/
structure HConfig where
  extendsList : List String
  fix : Bool
  plugins : List String
  rulesAddr : Nat
  customSyn : Option String
deriving DecidableEq

/-- Heap-level createStylelintConfig: receives a reference to the
caller's rules object, reads it, builds the normalized property list
(the spread `{ ...rules }` plus the legacy remap, exactly as in the pure
`createStylelintConfig`), and stores it in a freshly allocated object.
Returns `none` only if the address is dangling. -/
def createStylelintConfigH (h : Heap) (rulesAddr : Nat) (syn : String) :
    Option (Heap × HConfig) :=
  match h.lookup rulesAddr with
  | none => none
  | some obj =>
      let cfg := createStylelintConfig obj syn
      some (⟨(h.next, cfg.rules) :: h.objs, h.next + 1⟩,
            { extendsList := cfg.extendsList
              fix := cfg.fix
              plugins := cfg.plugins
              rulesAddr := h.next
              customSyn := cfg.customSyn })

/-- The four validation failure kinds of src/utils/validation.ts
(§7 of the spec); each is raised with its own distinct user-facing
message. -/
inductive ValidationErrorKind where
  | emptyCode : ValidationErrorKind
  | unsupportedSyn : ValidationErrorKind
  | noRules : ValidationErrorKind
  | unsupportedOutputStyle : ValidationErrorKind
deriving DecidableEq

/-- A string trims to the empty string exactly when every character is
whitespace; this executable form stands in for `code.trim() === ''`. -/
def isBlank (code : String) : Bool :=
  code.data.all Char.isWhitespace

/-- Modelled from the spec: `validateCode` lives in src/utils/validation.ts,
which is absent from the sources; per §4.2 the code must be non-empty
after trimming whitespace, else EmptyCode. -/
def validateCode (code : String) : Except ValidationErrorKind Unit :=
  if isBlank code then .error .emptyCode else .ok ()

/-- Modelled from the spec: `validateSyntax` lives in src/utils/validation.ts,
which is absent from the sources; per §4.2 the syntax must be `css` or
`html`, else UnsupportedSyntax. -/
def validateSyn (syn : String) : Except ValidationErrorKind Unit :=
  if syn = "css" ∨ syn = "html" then .ok () else .error .unsupportedSyn

/-- Modelled from the spec: `validateRules` lives in src/utils/validation.ts,
which is absent from the sources; per §4.2 the rules mapping must have at
least one entry, else NoRules. -/
def validateRules (rules : RulesMap) : Except ValidationErrorKind Unit :=
  if rules = [] then .error .noRules else .ok ()

/-- Modelled from the spec: `validateOutputStyle` lives in
src/utils/validation.ts, which is absent from the sources; per §4.2 an
outputStyle, when present, must be `compact` or `nested`, else
UnsupportedOutputStyle. -/
def validateOutputStyle (style : Option String) : Except ValidationErrorKind Unit :=
  match style with
  | none => .ok ()
  | some s =>
      if s = "compact" ∨ s = "nested" then .ok ()
      else .error .unsupportedOutputStyle

/-- The config part of a LintRequest (src/types/index.ts): rules plus an
optional output style.  Unvalidated wire data, so the style is a raw
string. -/
structure LintRequestConfig where
  rules : RulesMap
  outputStyle : Option String
deriving DecidableEq

/-- LintRequest (src/types/index.ts).  The wire value of the source field
`syntax` (rendered `syn`) is a raw string until validated. -/
structure LintRequest where
  code : String
  syn : String
  config : LintRequestConfig
deriving DecidableEq

/-- validateLintRequest (src/services/lintService.ts lines 36-50): the
four checks run in sequence and the first failure propagates (each
validator throws). -/
def validateLintRequest (r : LintRequest) : Except ValidationErrorKind Unit :=
  match validateCode r.code with
  | .error e => .error e
  | .ok _ =>
      match validateSyn r.syn with
      | .error e => .error e
      | .ok _ =>
          match validateRules r.config.rules with
          | .error e => .error e
          | .ok _ => validateOutputStyle r.config.outputStyle

/-- StylelintWarning (src/types/index.ts). -/
structure StylelintWarning where
  line : Nat
  column : Nat
  rule : String
  severity : String
  text : String
deriving DecidableEq

/-- The `warnings` field of a raw stylelint result: absent (or otherwise
falsy), present but not an array, or an actual array. -/
inductive WarnField where
  | missing : WarnField
  | nonArray : WarnField
  | array : List StylelintWarning → WarnField
deriving DecidableEq

/-- One element of LinterResult.results as the code defensively reads it. -/
structure RawLintResult where
  warnings : WarnField
deriving DecidableEq

/-- The `results` field of a LinterResult: absent/falsy, or an array. -/
inductive ResultsField where
  | missing : ResultsField
  | array : List RawLintResult → ResultsField
deriving DecidableEq

/-- LinterResult as consumed by lintService: the results list and the
auto-fixed code (`lintResult.code`, absent when the engine returns none). -/
structure LinterResult where
  results : ResultsField
  code : Option String
deriving DecidableEq

/-- extractWarnings (src/services/lintService.ts lines 58-69): returns []
when results is absent or empty, or when the first result's warnings
field is absent or not an array; otherwise the first result's warnings. -/
def extractWarnings (lintResult : LinterResult) : List StylelintWarning :=
  match lintResult.results with
  | .missing => []
  | .array [] => []
  | .array (firstResult :: _) =>
      match firstResult.warnings with
      | .missing => []
      | .nonArray => []
      | .array ws => ws

/-- A CSS declaration, for the spec-modelled formatters. -/
structure CssDecl where
  prop : String
  value : String
deriving DecidableEq

/-- A CSS rule block, for the spec-modelled formatters. -/
structure CssRule where
  selector : String
  decls : List CssDecl
deriving DecidableEq

/-- A parsed CSS tree (the postcss Root, reduced to what the formatters
consume). -/
structure PostcssRoot where
  rules : List CssRule
deriving DecidableEq

/-- Modelled from the spec: `nestedFormatter` lives in
src/utils/formatters.ts, which is absent from the sources; per §4.4 each
block opens with a brace and newline, declarations indented two spaces on
their own lines, closing brace on its own line. -/
def nestedFormatter (root : PostcssRoot) : String :=
  String.intercalate "\n" (root.rules.map (fun r =>
    r.selector ++ " \x7b\n"
      ++ String.intercalate "\n"
          (r.decls.map (fun d => "  " ++ d.prop ++ ": " ++ d.value ++ ";"))
      ++ "\n\x7d"))

/-- Modelled from the spec: `compactFormatter` lives in
src/utils/formatters.ts, which is absent from the sources; per §4.4 each
block renders on one line with a space after the opening brace and before
the closing one, declarations separated by a semicolon and space. -/
def compactFormatter (root : PostcssRoot) : String :=
  String.intercalate "\n" (root.rules.map (fun r =>
    r.selector ++ " \x7b "
      ++ String.intercalate " "
          (r.decls.map (fun d => d.prop ++ ": " ++ d.value ++ ";"))
      ++ " \x7d"))

/-- Modelled from the spec: the VALIDATION_ERRORS.PARSE_ERROR message
constant lives in src/constants, absent from the sources; §4.4 calls it a
ParseError message prefix. -/
def PARSE_ERROR_MSG : String := "CSS parse error"

/-- Modelled from the spec: the VALIDATION_ERRORS.LINT_ERROR message
constant lives in src/constants, absent from the sources; §4.3 calls it a
generic lint-execution-failed prefix. -/
def LINT_ERROR_MSG : String := "lint execution failed"

/-- Modelled from the spec: the VALIDATION_ERRORS.UNKNOWN_ERROR message
constant lives in src/constants, absent from the sources; it is the fixed
message used when a non-Error value is thrown. -/
def UNKNOWN_ERROR_MSG : String := "unknown lint error"

/-- Modelled from the spec: MESSAGES.SUCCESS lives in src/constants,
absent from the sources; the tests pin its value. -/
def SUCCESS_MESSAGE : String := "성공"

/-- STYLELINT_VERSION (src/services/lintService.ts): read once from the
installed package, an out-of-scope constant. -/
def STYLELINT_VERSION : String := "unknown"

/-- JS falsiness of the `outputStyle` argument (`!outputStyle`):
`undefined` and the empty string are falsy. -/
def isFalsyOutputStyle : Option String → Bool
  | none => true
  | some s => s == ""

/-- A value thrown by JS code inside the try block of lintCode: a typed
LintError or ParseError, some other Error instance (carrying a message),
or a non-Error value (carried as its string rendering). -/
inductive ThrownValue where
  | lintErr : String → ThrownValue
  | parseErr : String → ThrownValue
  | jsError : String → ThrownValue
  | nonError : String → ThrownValue
deriving DecidableEq

/-- formatOutput (src/services/lintService.ts lines 79-104): returns the
code verbatim for html syntax or a falsy output style; otherwise parses
with postcss (passed in as the black-box `parse`) and re-serializes,
wrapping a parse failure into a ParseError whose message appends the
underlying parser message to the PARSE_ERROR prefix. -/
def formatOutput (parse : String → Except String PostcssRoot)
    (lintedCode : String) (outputStyle : Option String) (syn : String) :
    Except ThrownValue String :=
  if syn = "html" ∨ isFalsyOutputStyle outputStyle = true then
    .ok lintedCode
  else
    match parse lintedCode with
    | .error msg => .error (.parseErr (PARSE_ERROR_MSG ++ ": " ++ msg))
    | .ok root =>
        if outputStyle = some "nested" then .ok (nestedFormatter root)
        else .ok (compactFormatter root)

/-- Outcome of the black-box engine call `styleLint.lint(options)`:
either a LinterResult or a thrown value. -/
inductive EngineOutcome where
  | success : LinterResult → EngineOutcome
  | thrown : ThrownValue → EngineOutcome
deriving DecidableEq

/-- LintOptions (src/types/index.ts): code plus the synthesized config. -/
structure LintOptions where
  code : String
  config : StylelintConfig
deriving DecidableEq

/-- The errors lintCode can raise: a validation error (thrown before the
try block), a LintError, or a ParseError. -/
inductive LintServiceError where
  | validation : ValidationErrorKind → LintServiceError
  | lintErr : String → LintServiceError
  | parseErr : String → LintServiceError
deriving DecidableEq

/-- Config info echoed in a successful response
(src/services/lintService.ts lines 166-171). -/
structure LintResultInfo where
  version : String
  extendsList : List String
  plugins : List String
  customSyn : Option String
deriving DecidableEq

/-- LintResultContent (src/types/index.ts). -/
structure LintResultContent where
  warnings : List StylelintWarning
  output : String
  info : LintResultInfo
deriving DecidableEq

/-- LintResult (src/types/index.ts). -/
structure LintResult where
  success : Bool
  message : String
  content : Option LintResultContent
deriving DecidableEq

/-- The catch block of lintCode (src/services/lintService.ts lines
182-200): LintError and ParseError are rethrown unchanged; any other
Error instance is wrapped into a LintError prefixed with LINT_ERROR; a
non-Error thrown value becomes a LintError with the fixed UNKNOWN_ERROR
message. -/
def catchBlock : ThrownValue → LintServiceError
  | .lintErr m => .lintErr m
  | .parseErr m => .parseErr m
  | .jsError m => .lintErr (LINT_ERROR_MSG ++ ": " ++ m)
  | .nonError _ => .lintErr UNKNOWN_ERROR_MSG

/-- lintCode (src/services/lintService.ts lines 123-201): validate,
synthesize the config, run the engine, extract warnings, format the
fixed code (`lintResult.code ?? code`), assemble the success envelope;
anything thrown inside the try block goes through the catch block. -/
def lintCode (engine : LintOptions → EngineOutcome)
    (parse : String → Except String PostcssRoot)
    (request : LintRequest) : Except LintServiceError LintResult :=
  match validateLintRequest request with
  | .error e => .error (.validation e)
  | .ok _ =>
      let stylelintConfig := createStylelintConfig request.config.rules request.syn
      let options : LintOptions := { code := request.code, config := stylelintConfig }
      let tryBody : Except ThrownValue LintResult :=
        match engine options with
        | .thrown v => .error v
        | .success lintResult =>
            let warnings := extractWarnings lintResult
            match formatOutput parse (lintResult.code.getD request.code)
                request.config.outputStyle request.syn with
            | .error v => .error v
            | .ok formattedOutput =>
                .ok { success := true
                      message := SUCCESS_MESSAGE
                      content := some
                        { warnings := warnings
                          output := formattedOutput
                          info :=
                            { version := STYLELINT_VERSION
                              extendsList := stylelintConfig.extendsList
                              plugins := stylelintConfig.plugins
                              customSyn := stylelintConfig.customSyn } } }
      match tryBody with
      | .ok res => .ok res
      | .error v => .error (catchBlock v)

/-- Equality of Except values is decidable componentwise; used by the
witnesses to evaluate the embedded functions on concrete inputs. -/
instance {ε α : Type} [DecidableEq ε] [DecidableEq α] :
    DecidableEq (Except ε α) := fun a b =>
  match a, b with
  | .error e, .error e' =>
      if h : e = e' then isTrue (by rw [h])
      else isFalse (by intro hh; cases hh; exact h rfl)
  | .ok x, .ok y =>
      if h : x = y then isTrue (by rw [h])
      else isFalse (by intro hh; cases hh; exact h rfl)
  | .error _, .ok _ => isFalse (by intro hh; cases hh)
  | .ok _, .error _ => isFalse (by intro hh; cases hh)

/-- Caller rules object used by several witnesses. -/
def sampleRules : RulesMap :=
  [("color-hex-case", RuleVal.prim (JsPrim.strV "lower")),
   ("order", RuleVal.prim (JsPrim.boolV true))]

/-- A request that passes validation, used by witnesses. -/
def sampleRequest : LintRequest :=
  { code := "body \x7b color: red; \x7d"
    syn := "css"
    config := { rules := sampleRules, outputStyle := some "compact" } }

/-- A postcss stand-in that parses everything to an empty tree. -/
def parseOk : String → Except String PostcssRoot :=
  fun _ => .ok { rules := [] }

/-- A postcss stand-in that always fails with a fixed message. -/
def parseFail : String → Except String PostcssRoot :=
  fun _ => .error "Unclosed block"

theorem lookupRule_setKey_self (m : RulesMap) (k : String) (v : RuleVal) :
    lookupRule (setKey m k v) k = some v := by
  induction m with
  | nil => simp [setKey, lookupRule]
  | cons p rest ih =>
      by_cases h : p.1 = k
      · simp [setKey, h, lookupRule]
      · simp [setKey, h, lookupRule, ih]

theorem lookupRule_setKey_ne (m : RulesMap) (k k' : String) (v : RuleVal)
    (h : k' ≠ k) : lookupRule (setKey m k v) k' = lookupRule m k' := by
  have hk : ¬ k = k' := fun hh => h hh.symm
  induction m with
  | nil => simp [setKey, lookupRule, hk]
  | cons p rest ih =>
      obtain ⟨a, b⟩ := p
      by_cases hp : a = k
      · subst hp
        simp [setKey, lookupRule, hk]
      · simp [setKey, lookupRule, hp, ih]

theorem lookupRule_delKey_self (m : RulesMap) (k : String) :
    lookupRule (delKey m k) k = none := by
  induction m with
  | nil => simp [delKey, lookupRule]
  | cons p rest ih =>
      by_cases hp : p.1 = k
      · simpa [delKey, hp] using ih
      · obtain ⟨a, b⟩ := p
        simp_all [delKey, lookupRule]

theorem lookupRule_delKey_ne (m : RulesMap) (k k' : String) (h : k' ≠ k) :
    lookupRule (delKey m k) k' = lookupRule m k' := by
  induction m with
  | nil => simp [delKey, lookupRule]
  | cons p rest ih =>
      obtain ⟨a, b⟩ := p
      by_cases hp : a = k
      · subst hp
        have : ¬ a = k' := fun hh => h hh.symm
        simp_all [delKey, lookupRule]
      · by_cases hk : a = k'
        · simp_all [delKey, lookupRule]
        · simp_all [delKey, lookupRule]

/-- C1: when the copied rules mapping contains `color-hex-case`,
createStylelintConfig moves that value to `@stylistic/color-hex-case`,
removes the old key, and leaves every key other than those two at its
original value; when `color-hex-case` is absent no key is renamed (the
rules come back unchanged). -/
theorem c1_color_hex_case_remap (rules : RulesMap) (syn : String) :
    (∀ v, lookupRule rules "color-hex-case" = some v →
        lookupRule (createStylelintConfig rules syn).rules
            "@stylistic/color-hex-case" = some v ∧
        lookupRule (createStylelintConfig rules syn).rules
            "color-hex-case" = none ∧
        ∀ k, k ≠ "color-hex-case" → k ≠ "@stylistic/color-hex-case" →
          lookupRule (createStylelintConfig rules syn).rules k
            = lookupRule rules k) ∧
    (lookupRule rules "color-hex-case" = none →
        (createStylelintConfig rules syn).rules = rules) := by
  constructor
  · intro v hv
    have hr : (createStylelintConfig rules syn).rules
        = delKey (setKey rules "@stylistic/color-hex-case" v) "color-hex-case" := by
      simp [createStylelintConfig, normalizeRules, hv]
    refine ⟨?_, ?_, ?_⟩
    · rw [hr, lookupRule_delKey_ne _ _ _ (by decide), lookupRule_setKey_self]
    · rw [hr, lookupRule_delKey_self]
    · intro k h1 h2
      rw [hr, lookupRule_delKey_ne _ _ _ h1, lookupRule_setKey_ne _ _ _ _ h2]
  · intro hnone
    simp [createStylelintConfig, normalizeRules, hnone]

theorem c1_remap_witness :
    lookupRule sampleRules "color-hex-case"
      = some (RuleVal.prim (JsPrim.strV "lower")) ∧
    lookupRule (createStylelintConfig sampleRules "css").rules
        "@stylistic/color-hex-case" = some (RuleVal.prim (JsPrim.strV "lower")) ∧
    lookupRule (createStylelintConfig sampleRules "css").rules
        "color-hex-case" = none ∧
    lookupRule (createStylelintConfig sampleRules "css").rules "order"
      = lookupRule sampleRules "order" := by
  have h := (c1_color_hex_case_remap sampleRules "css").1
    (RuleVal.prim (JsPrim.strV "lower")) (by decide)
  exact ⟨by decide, h.1, h.2.1, h.2.2 "order" (by decide) (by decide)⟩

/-- C7: the synthesized config has no custom parser for css, the
postcss-html parser for html, and in general the customSyntax field is
populated only when the syntax-to-parser map yields a non-empty string. -/
theorem c7_custom_syn_mapping (rules : RulesMap) :
    (createStylelintConfig rules "css").customSyn = none ∧
    (createStylelintConfig rules "html").customSyn = some "postcss-html" ∧
    ∀ syn s, (createStylelintConfig rules syn).customSyn = some s →
      synParserMap syn = some s ∧ s ≠ "" := by
  refine ⟨rfl, rfl, ?_⟩
  intro syn s h
  have hc : (createStylelintConfig rules syn).customSyn
      = (if jsTruthyStr (synParserMap syn) then synParserMap syn else none) := rfl
  by_cases ht : jsTruthyStr (synParserMap syn) = true
  · have h' : synParserMap syn = some s := by
      rw [hc, if_pos ht] at h
      exact h
    refine ⟨h', ?_⟩
    rw [h'] at ht
    simpa [jsTruthyStr] using ht
  · exfalso
    have hf : jsTruthyStr (synParserMap syn) = false := by
      simpa using ht
    have hn : (createStylelintConfig rules syn).customSyn = none := by
      rw [hc, hf]
      simp
    rw [hn] at h
    cases h

theorem c7_custom_syn_witness :
    (createStylelintConfig sampleRules "css").customSyn = none ∧
    (createStylelintConfig sampleRules "html").customSyn = some "postcss-html" ∧
    (synParserMap "html" = some "postcss-html" ∧ "postcss-html" ≠ "") := by
  have h := c7_custom_syn_mapping sampleRules
  exact ⟨h.1, h.2.1, h.2.2 "html" "postcss-html" (by decide)⟩

/-- C9: every synthesized config unconditionally enables auto-fix. -/
theorem c9_fix_always_enabled (rules : RulesMap) (syn : String) :
    (createStylelintConfig rules syn).fix = true := rfl

/-- C8: warning extraction treats every malformed engine-result shape as
the empty sequence: missing results, an empty results list, and a first
result whose warnings field is missing or not an array all yield []. -/
theorem c8_extract_warnings_defensive :
    (∀ c, extractWarnings { results := ResultsField.missing, code := c } = []) ∧
    (∀ c, extractWarnings { results := ResultsField.array [], code := c } = []) ∧
    (∀ rest c, extractWarnings
        { results := ResultsField.array ({ warnings := WarnField.missing } :: rest),
          code := c } = []) ∧
    (∀ rest c, extractWarnings
        { results := ResultsField.array ({ warnings := WarnField.nonArray } :: rest),
          code := c } = []) := by
  exact ⟨fun _ => rfl, fun _ => rfl, fun _ _ => rfl, fun _ _ => rfl⟩

/-- C10: warning extraction reads only the first element of the results
list; the second and all later results are discarded, the outcome being
identical to extraction from the first result alone. -/
theorem c10_only_first_result (firstResult second : RawLintResult)
    (rest : List RawLintResult) (c : Option String) :
    extractWarnings
        { results := ResultsField.array (firstResult :: second :: rest), code := c }
      = extractWarnings
        { results := ResultsField.array [firstResult], code := c } := rfl

theorem heap_lookup_cons (n nx a : Nat) (X : RulesMap)
    (objs : List (Nat × RulesMap)) :
    Heap.lookup ⟨(n, X) :: objs, nx⟩ a
      = if n = a then some X else Heap.lookup ⟨objs, nx⟩ a := by
  by_cases hna : n = a
  · simp [Heap.lookup, List.find?, hna]
  · simp [Heap.lookup, List.find?, hna]

theorem heap_lookup_lt_next (h : Heap) (a : Nat) (o : RulesMap)
    (hwf : h.WF) (hl : h.lookup a = some o) : a < h.next := by
  unfold Heap.lookup at hl
  cases hf : h.objs.find? (fun p => p.1 = a) with
  | none => rw [hf] at hl; cases hl
  | some p =>
      have hmem : p ∈ h.objs := List.mem_of_find?_eq_some hf
      have hpa : p.1 = a := by
        have := List.find?_some hf
        exact of_decide_eq_true this
      have := hwf p hmem
      omega

/-- C2 counterexample: the copy made by createStylelintConfig is shallow.
At a heap holding one rules object at address 0 whose single rule value
is a reference to a mutable array (address 7), the returned config's
freshly allocated rules object and the caller's input object both carry
the very same reference, so the returned config and its input share
mutable nested state — refuting the claim that no shared mutable state
remains, "including nested array/record rule values". -/
theorem c2_nested_values_shared :
    ∃ h2 cfg,
      createStylelintConfigH
          { objs := [(0, [("order", RuleVal.ref 7)])], next := 1 } 0 "css"
        = some (h2, cfg) ∧
      h2.lookup cfg.rulesAddr = some [("order", RuleVal.ref 7)] ∧
      h2.lookup 0 = some [("order", RuleVal.ref 7)] ∧
      cfg.rulesAddr ≠ 0 := by
  exact ⟨_, _, rfl, by decide, by decide, by decide⟩

/-- C2 (amended): createStylelintConfig copies the caller's rules into a
fresh top-level mapping: the call leaves every pre-existing heap object
(in particular the caller's rules object) unchanged, the returned
config's rules object is a new address distinct from the input's, and
the rules objects of two successive calls never alias each other; the
copy is however shallow, so nested array/record rule values remain
shared by reference with the input. -/
theorem c2_defensive_toplevel_copy (h : Heap) (addr : Nat) (syn : String)
    (obj : RulesMap) (hwf : h.WF) (hobj : h.lookup addr = some obj) :
    ∃ h2 cfg, createStylelintConfigH h addr syn = some (h2, cfg) ∧
      cfg.rulesAddr ≠ addr ∧
      (∀ a, a < h.next → h2.lookup a = h.lookup a) ∧
      h2.lookup addr = some obj ∧
      h2.WF ∧
      (∀ addr2 obj2 syn2 h3 cfg2, h2.lookup addr2 = some obj2 →
          createStylelintConfigH h2 addr2 syn2 = some (h3, cfg2) →
          cfg2.rulesAddr ≠ cfg.rulesAddr) := by
  have hlt : addr < h.next := heap_lookup_lt_next h addr obj hwf hobj
  have heq : createStylelintConfigH h addr syn
      = some (⟨(h.next, (createStylelintConfig obj syn).rules) :: h.objs, h.next + 1⟩,
          { extendsList := (createStylelintConfig obj syn).extendsList
            fix := (createStylelintConfig obj syn).fix
            plugins := (createStylelintConfig obj syn).plugins
            rulesAddr := h.next
            customSyn := (createStylelintConfig obj syn).customSyn }) := by
    simp [createStylelintConfigH, hobj]
  have hframe : ∀ a, a < h.next →
      Heap.lookup ⟨(h.next, (createStylelintConfig obj syn).rules) :: h.objs, h.next + 1⟩ a
        = h.lookup a := by
    intro a ha
    rw [heap_lookup_cons]
    have : ¬ h.next = a := by omega
    rw [if_neg this]
    rfl
  refine ⟨_, _, heq, by simpa using (by omega : ¬ h.next = addr), hframe, ?_, ?_, ?_⟩
  · rw [hframe addr hlt]; exact hobj
  · intro p hp
    rcases List.mem_cons.mp hp with hh | ht
    · subst hh; exact Nat.lt_succ_self _
    · have := hwf p ht
      show p.1 < h.next + 1
      omega
  · intro addr2 obj2 syn2 h3 cfg2 hl2 hc2
    have hc2' : createStylelintConfigH
        ⟨(h.next, (createStylelintConfig obj syn).rules) :: h.objs, h.next + 1⟩ addr2 syn2
        = some (⟨(h.next + 1, (createStylelintConfig obj2 syn2).rules)
              :: ((h.next, (createStylelintConfig obj syn).rules) :: h.objs), h.next + 1 + 1⟩,
            { extendsList := (createStylelintConfig obj2 syn2).extendsList
              fix := (createStylelintConfig obj2 syn2).fix
              plugins := (createStylelintConfig obj2 syn2).plugins
              rulesAddr := h.next + 1
              customSyn := (createStylelintConfig obj2 syn2).customSyn }) := by
      simp [createStylelintConfigH, hl2]
    rw [hc2'] at hc2
    have : cfg2.rulesAddr = h.next + 1 := by
      cases hc2
      rfl
    simp [this]

theorem c2_defensive_toplevel_copy_witness :
    ∃ h2 cfg, createStylelintConfigH
        { objs := [(0, sampleRules)], next := 1 } 0 "css" = some (h2, cfg) ∧
      cfg.rulesAddr ≠ 0 ∧
      (∀ a, a < 1 →
          h2.lookup a = Heap.lookup { objs := [(0, sampleRules)], next := 1 } a) ∧
      h2.lookup 0 = some sampleRules ∧
      h2.WF ∧
      (∀ addr2 obj2 syn2 h3 cfg2, h2.lookup addr2 = some obj2 →
          createStylelintConfigH h2 addr2 syn2 = some (h3, cfg2) →
          cfg2.rulesAddr ≠ cfg.rulesAddr) :=
  c2_defensive_toplevel_copy { objs := [(0, sampleRules)], next := 1 } 0 "css"
    sampleRules (by decide) (by decide)

/-- C3: request validation runs its four checks in a fixed order and
fails fast with a distinct error per check: empty/whitespace-only code
fails with EmptyCode; otherwise an unsupported syntax fails with
UnsupportedSyntax; otherwise an empty rules mapping fails with NoRules;
otherwise a present but unsupported outputStyle fails with
UnsupportedOutputStyle; otherwise validation succeeds.  The embedding is
a pure function, so no check has side effects and no check past the
first failing one contributes to the result. -/
theorem c3_validation_order (r : LintRequest) :
    (isBlank r.code = true → validateLintRequest r = .error .emptyCode) ∧
    (isBlank r.code = false → ¬(r.syn = "css" ∨ r.syn = "html") →
        validateLintRequest r = .error .unsupportedSyn) ∧
    (isBlank r.code = false → (r.syn = "css" ∨ r.syn = "html") →
        r.config.rules = [] → validateLintRequest r = .error .noRules) ∧
    (isBlank r.code = false → (r.syn = "css" ∨ r.syn = "html") →
        r.config.rules ≠ [] →
        ∀ s, r.config.outputStyle = some s → ¬(s = "compact" ∨ s = "nested") →
          validateLintRequest r = .error .unsupportedOutputStyle) ∧
    (isBlank r.code = false → (r.syn = "css" ∨ r.syn = "html") →
        r.config.rules ≠ [] →
        (r.config.outputStyle = none ∨
          ∃ s, r.config.outputStyle = some s ∧ (s = "compact" ∨ s = "nested")) →
          validateLintRequest r = .ok ()) := by
  refine ⟨?_, ?_, ?_, ?_, ?_⟩
  · intro h1
    simp [validateLintRequest, validateCode, h1]
  · intro h1 h2
    simp [validateLintRequest, validateCode, validateSyn, h1, h2]
  · intro h1 h2 h3
    simp [validateLintRequest, validateCode, validateSyn, validateRules,
      h1, h2, h3]
  · intro h1 h2 h3 s hs hns
    simp [validateLintRequest, validateCode, validateSyn, validateRules,
      validateOutputStyle, h1, h2, h3, hs, hns]
  · intro h1 h2 h3 h4
    rcases h4 with h4 | ⟨s, hs, hv⟩
    · simp [validateLintRequest, validateCode, validateSyn, validateRules,
        validateOutputStyle, h1, h2, h3, h4]
    · simp [validateLintRequest, validateCode, validateSyn, validateRules,
        validateOutputStyle, h1, h2, h3, hs, hv]

theorem c3_validation_order_witness :
    validateLintRequest
        { code := "   ", syn := "css",
          config := { rules := sampleRules, outputStyle := none } }
      = .error .emptyCode ∧
    validateLintRequest
        { code := "a", syn := "xml",
          config := { rules := sampleRules, outputStyle := none } }
      = .error .unsupportedSyn ∧
    validateLintRequest
        { code := "a", syn := "css",
          config := { rules := [], outputStyle := none } }
      = .error .noRules ∧
    validateLintRequest
        { code := "a", syn := "css",
          config := { rules := sampleRules, outputStyle := some "pretty" } }
      = .error .unsupportedOutputStyle ∧
    validateLintRequest sampleRequest = .ok () := by
  refine ⟨(c3_validation_order _).1 (by decide),
      (c3_validation_order _).2.1 (by decide) (by decide),
      (c3_validation_order _).2.2.1 (by decide) (by decide) (by decide),
      (c3_validation_order _).2.2.2.1 (by decide) (by decide) (by decide)
        "pretty" (by decide) (by decide),
      (c3_validation_order _).2.2.2.2 (by decide) (by decide) (by decide)
        (Or.inr ⟨"compact", by decide, Or.inl rfl⟩)⟩

/-- C5: formatting is the identity when the syntax is html or when no
output style was requested, for every parser and every code string; in
particular html input is never reformatted whatever the output style. -/
theorem c5_format_identity (parse : String → Except String PostcssRoot)
    (lintedCode : String) (outputStyle : Option String) (syn : String)
    (h : syn = "html" ∨ outputStyle = none) :
    formatOutput parse lintedCode outputStyle syn = .ok lintedCode := by
  rcases h with h | h
  · simp [formatOutput, h]
  · simp [formatOutput, h, isFalsyOutputStyle]

theorem c5_format_identity_witness :
    formatOutput parseFail "<style>a</style>" (some "nested") "html"
      = .ok "<style>a</style>" :=
  c5_format_identity parseFail "<style>a</style>" (some "nested") "html"
    (Or.inl rfl)

theorem formatOutput_error_inv (parse : String → Except String PostcssRoot)
    (c : String) (st : Option String) (sy : String) (v : ThrownValue)
    (h : formatOutput parse c st sy = .error v) :
    ∃ m, parse c = .error m ∧ v = .parseErr (PARSE_ERROR_MSG ++ ": " ++ m) := by
  unfold formatOutput at h
  by_cases hc : sy = "html" ∨ isFalsyOutputStyle st = true
  · rw [if_pos hc] at h
    exact Except.noConfusion h
  · rw [if_neg hc] at h
    cases hp : parse c with
    | error m =>
        rw [hp] at h
        simp only [Except.error.injEq] at h
        exact ⟨m, rfl, h.symm⟩
    | ok root =>
        rw [hp] at h
        by_cases hst : st = some "nested" <;> simp [hst] at h

/-- C4 counterexample: a non-Error value thrown during the engine
invocation is not wrapped with its original content.  Throwing the two
distinct values rendered "alpha" and "beta" yields the very same fixed
unknown-error message, which therefore cannot be a fixed prefix followed
by the original message for both of them — refuting the claim that the
original message is always carried. -/
theorem c4_nonerror_message_dropped :
    lintCode (fun _ => .thrown (.nonError "alpha")) parseOk sampleRequest
      = .error (.lintErr UNKNOWN_ERROR_MSG) ∧
    lintCode (fun _ => .thrown (.nonError "beta")) parseOk sampleRequest
      = .error (.lintErr UNKNOWN_ERROR_MSG) ∧
    (∀ pre : String,
      ¬ (UNKNOWN_ERROR_MSG = pre ++ "alpha" ∧ UNKNOWN_ERROR_MSG = pre ++ "beta")) := by
  refine ⟨by decide, by decide, ?_⟩
  rintro pre ⟨h1, h2⟩
  have h3 : pre ++ "alpha" = pre ++ "beta" := h1.symm.trans h2
  have h4 := congrArg String.data h3
  simp [String.data_append] at h4

/-- C4 (amended): values thrown during the engine invocation that are
LintError or ParseError instances propagate unchanged; any other Error
instance is wrapped into a LintError whose message is the fixed
explanatory prefix followed by the original error's message; a thrown
value that is not an Error instance is wrapped into a LintError carrying
only the fixed unknown-error message, without the original value. -/
theorem c4_engine_error_wrapping (engine : LintOptions → EngineOutcome)
    (parse : String → Except String PostcssRoot) (r : LintRequest)
    (v : ThrownValue)
    (hv : validateLintRequest r = .ok ())
    (he : engine
        { code := r.code,
          config := createStylelintConfig r.config.rules r.syn } = .thrown v) :
    lintCode engine parse r
      = .error (match v with
          | .lintErr m => .lintErr m
          | .parseErr m => .parseErr m
          | .jsError m => .lintErr (LINT_ERROR_MSG ++ ": " ++ m)
          | .nonError _ => .lintErr UNKNOWN_ERROR_MSG) := by
  cases v <;> simp [lintCode, hv, he, catchBlock]

theorem c4_engine_error_wrapping_witness :
    lintCode (fun _ => .thrown (.jsError "ENOENT")) parseOk sampleRequest
      = .error (.lintErr (LINT_ERROR_MSG ++ ": " ++ "ENOENT")) :=
  c4_engine_error_wrapping (fun _ => .thrown (.jsError "ENOENT")) parseOk
    sampleRequest (.jsError "ENOENT") (by decide) rfl

/-- C6: once validation has passed and the engine call returns normally,
the only remaining failure is a ParseError raised while re-serializing
the fixed CSS, carrying the underlying parser's message; on every other
such run lintCode returns normally with success = true. -/
theorem c6_parse_error_only_failure (engine : LintOptions → EngineOutcome)
    (parse : String → Except String PostcssRoot) (r : LintRequest)
    (res : LinterResult)
    (hv : validateLintRequest r = .ok ())
    (he : engine
        { code := r.code,
          config := createStylelintConfig r.config.rules r.syn } = .success res) :
    (∃ out, lintCode engine parse r = .ok out ∧ out.success = true) ∨
    (∃ m, parse (res.code.getD r.code) = .error m ∧
        lintCode engine parse r
          = .error (.parseErr (PARSE_ERROR_MSG ++ ": " ++ m))) := by
  cases hf : formatOutput parse (res.code.getD r.code) r.config.outputStyle r.syn with
  | ok o =>
      left
      refine ⟨?_, ?_, ?_⟩
      · exact
          { success := true
            message := SUCCESS_MESSAGE
            content := some
              { warnings := extractWarnings res
                output := o
                info :=
                  { version := STYLELINT_VERSION
                    extendsList := (createStylelintConfig r.config.rules r.syn).extendsList
                    plugins := (createStylelintConfig r.config.rules r.syn).plugins
                    customSyn := (createStylelintConfig r.config.rules r.syn).customSyn } } }
      · simp [lintCode, hv, he, hf]
      · rfl
  | error v =>
      right
      obtain ⟨m, hm, hveq⟩ := formatOutput_error_inv _ _ _ _ _ hf
      subst hveq
      refine ⟨m, hm, ?_⟩
      simp [lintCode, hv, he, hf, catchBlock]

theorem c6_parse_error_only_witness :
    (∃ out, lintCode
        (fun _ => EngineOutcome.success { results := ResultsField.missing, code := none })
        parseOk sampleRequest = .ok out ∧ out.success = true) ∨
    (∃ m, parseOk sampleRequest.code = .error m ∧
        lintCode
          (fun _ => EngineOutcome.success { results := ResultsField.missing, code := none })
          parseOk sampleRequest
          = .error (.parseErr (PARSE_ERROR_MSG ++ ": " ++ m))) :=
  c6_parse_error_only_failure
    (fun _ => EngineOutcome.success { results := ResultsField.missing, code := none })
    parseOk sampleRequest { results := ResultsField.missing, code := none }
    (by decide) rfl
